import Mathlib

/-!
Verification of the key-acquisition engine and dispatcher of a readline
library. The Go sources are shallowly embedded: bytes and runes are
modelled as `Nat` (bytes range over 0..255, runes over Unicode code
points), byte slices and rune slices as `List Nat`, and each Go function
as a Lean function on an explicit state record.
-/

namespace Readline

/-- Bytes in the continuation range `0x80..0xBF` of UTF-8. -/
def isCont (b : Nat) : Bool := 0x80 ≤ b && b ≤ 0xBF

/-- Valid leading pair of a 2-byte UTF-8 sequence (Go `utf8.DecodeRune`). -/
def utf8Ok2 (b0 b1 : Nat) : Bool := 0xC2 ≤ b0 && b0 ≤ 0xDF && isCont b1

/-- Valid 3-byte UTF-8 sequence head (Go acceptance ranges, excluding
surrogates and overlong forms). -/
def utf8Ok3 (b0 b1 b2 : Nat) : Bool :=
  ((b0 = 0xE0 && 0xA0 ≤ b1 && b1 ≤ 0xBF) ||
   (b0 = 0xED && 0x80 ≤ b1 && b1 ≤ 0x9F) ||
   ((0xE1 ≤ b0 && b0 ≤ 0xEC || b0 = 0xEE || b0 = 0xEF) && isCont b1)) &&
  isCont b2

/-- Valid 4-byte UTF-8 sequence head (Go acceptance ranges, bounding the
code point by `0x10FFFF` and excluding overlong forms). -/
def utf8Ok4 (b0 b1 b2 b3 : Nat) : Bool :=
  ((b0 = 0xF0 && 0x90 ≤ b1 && b1 ≤ 0xBF) ||
   (0xF1 ≤ b0 && b0 ≤ 0xF3 && isCont b1) ||
   (b0 = 0xF4 && 0x80 ≤ b1 && b1 ≤ 0x8F)) &&
  isCont b2 && isCont b3

/-- One step of Go's `utf8.DecodeRune` on a byte list: the decoded rune
and the number of bytes consumed (an invalid head decodes to the
replacement rune `0xFFFD` and consumes one byte). -/
def utf8DecodeStep (l : List Nat) : Nat × Nat :=
  match l with
  | [] => (0xFFFD, 1)
  | b0 :: rest =>
    if b0 < 0x80 then (b0, 1)
    else match rest with
      | [] => (0xFFFD, 1)
      | b1 :: b1rest =>
        if utf8Ok2 b0 b1 then ((b0 - 0xC0) * 64 + (b1 - 0x80), 2)
        else match b1rest with
          | [] => (0xFFFD, 1)
          | b2 :: b2rest =>
            if utf8Ok3 b0 b1 b2 then
              ((b0 - 0xE0) * 4096 + (b1 - 0x80) * 64 + (b2 - 0x80), 3)
            else match b2rest with
              | [] => (0xFFFD, 1)
              | b3 :: _ =>
                if utf8Ok4 b0 b1 b2 b3 then
                  ((b0 - 0xF0) * 262144 + (b1 - 0x80) * 4096 +
                    (b2 - 0x80) * 64 + (b3 - 0x80), 4)
                else (0xFFFD, 1)

/-- Fuel-driven iteration of `utf8DecodeStep`; the fuel is an upper bound
on the number of bytes, so it never runs out on real input. -/
def utf8DecodeAux : Nat → List Nat → List Nat
  | 0, _ => []
  | _ + 1, [] => []
  | fuel + 1, b :: rest =>
    let s := utf8DecodeStep (b :: rest)
    s.1 :: utf8DecodeAux fuel ((b :: rest).drop s.2)

/-- Go's `[]rune(string(bytes))` conversion: UTF-8 decoding where every
invalid byte yields the replacement rune `0xFFFD`. -/
def utf8Decode (l : List Nat) : List Nat := utf8DecodeAux l.length l

theorem utf8DecodeStep_pos (l : List Nat) : 1 ≤ (utf8DecodeStep l).2 := by
  unfold utf8DecodeStep
  repeat' split
  all_goals simp

theorem utf8DecodeAux_irrel : ∀ fuel l, List.length l ≤ fuel →
    utf8DecodeAux fuel l = utf8Decode l := by
  intro fuel
  induction fuel using Nat.strong_induction_on with
  | _ fuel ih =>
    intro l hl
    match fuel, l with
    | 0, l =>
      interval_cases hn : List.length l
      have : l = [] := List.length_eq_zero.mp hn
      subst this
      rfl
    | fuel + 1, [] =>
      rfl
    | fuel + 1, b :: rest =>
      simp only [utf8DecodeAux, utf8Decode, List.length_cons]
      have hstep := utf8DecodeStep_pos (b :: rest)
      have hdrop : List.length ((b :: rest).drop (utf8DecodeStep (b :: rest)).2)
          ≤ List.length rest := by
        simp only [List.length_drop, List.length_cons]
        omega
      have h1 : List.length ((b :: rest).drop (utf8DecodeStep (b :: rest)).2)
          ≤ fuel := by
        simp only [List.length_cons] at hl
        omega
      rw [ih fuel (by omega) _ h1, ih (List.length rest)
        (by simp at hl ⊢; omega) _ hdrop]

/-- Unfolding rule: decoding a non-empty byte list takes one decode step
and recurses past the consumed bytes. -/
theorem utf8Decode_cons (b : Nat) (rest : List Nat) :
    utf8Decode (b :: rest) = (utf8DecodeStep (b :: rest)).1 ::
      utf8Decode ((b :: rest).drop (utf8DecodeStep (b :: rest)).2) := by
  show utf8DecodeAux (List.length rest + 1) (b :: rest) = _
  simp only [utf8DecodeAux]
  congr 1
  apply utf8DecodeAux_irrel
  have := utf8DecodeStep_pos (b :: rest)
  simp only [List.length_drop, List.length_cons]
  omega

/-- Code points that Go encodes as themselves: everything below the
surrogate range plus the non-surrogates up to `0x10FFFF`. -/
def validRune (r : Nat) : Bool := r < 0xD800 || (0xDFFF < r && r < 0x110000)

/-- Go's `string(rune)` encoding of one rune: standard UTF-8, with
surrogates and out-of-range values encoded as the replacement rune. -/
def utf8EncodeChar (r : Nat) : List Nat :=
  if r < 0x80 then [r]
  else if r < 0x800 then [0xC0 + r / 64, 0x80 + r % 64]
  else if r < 0x10000 then
    if 0xD800 ≤ r && r ≤ 0xDFFF then [0xEF, 0xBF, 0xBD]
    else [0xE0 + r / 4096, 0x80 + r / 64 % 64, 0x80 + r % 64]
  else if r < 0x110000 then
    [0xF0 + r / 262144, 0x80 + r / 4096 % 64, 0x80 + r / 64 % 64,
      0x80 + r % 64]
  else [0xEF, 0xBF, 0xBD]

/-- Go's `string(runes)` conversion, byte by byte. -/
def utf8Encode (l : List Nat) : List Nat := (l.map utf8EncodeChar).flatten

/-- The rune actually stored after a Go rune→string→rune round trip:
valid runes survive unchanged, invalid ones collapse to `0xFFFD`. -/
def sanitizeRune (r : Nat) : Nat := if validRune r then r else 0xFFFD

theorem sanitizeRune_eq_self (r : Nat) (h : validRune r = true) :
    sanitizeRune r = r := by simp [sanitizeRune, h]

theorem sanitizeRune_eq_repl (r : Nat) (h : validRune r = false) :
    sanitizeRune r = 0xFFFD := by simp [sanitizeRune, h]

/-- Decoding the UTF-8 bytes of the replacement rune yields that rune. -/
theorem utf8Decode_repl (t : List Nat) :
    utf8Decode (0xEF :: 0xBF :: 0xBD :: t) = 0xFFFD :: utf8Decode t := by
  rw [utf8Decode_cons]
  have hs : utf8DecodeStep (0xEF :: 0xBF :: 0xBD :: t) = (0xFFFD, 3) := by
    simp [utf8DecodeStep, utf8Ok2, utf8Ok3, isCont]
  rw [hs]
  rfl

theorem utf8_roundtrip_char (r : Nat) (t : List Nat) :
    utf8Decode (utf8EncodeChar r ++ t) = sanitizeRune r :: utf8Decode t := by
  by_cases h1 : r < 0x80
  · have he : utf8EncodeChar r = [r] := by simp [utf8EncodeChar, h1]
    rw [he]
    simp only [List.cons_append, List.nil_append, utf8Decode_cons]
    have hs : utf8DecodeStep (r :: t) = (r, 1) := by
      simp [utf8DecodeStep, h1]
    rw [hs, sanitizeRune_eq_self r (by simp [validRune]; omega)]
    rfl
  · by_cases h2 : r < 0x800
    · have he : utf8EncodeChar r = [0xC0 + r / 64, 0x80 + r % 64] := by
        simp [utf8EncodeChar, h1, h2]
      rw [he]
      simp only [List.cons_append, List.nil_append, utf8Decode_cons]
      have hok : utf8Ok2 (0xC0 + r / 64) (0x80 + r % 64) = true := by
        simp [utf8Ok2, isCont]; omega
      have hnot : ¬ (0xC0 + r / 64 < 0x80) := by omega
      have hs : utf8DecodeStep ((0xC0 + r / 64) :: (0x80 + r % 64) :: t) =
          ((0xC0 + r / 64 - 0xC0) * 64 + (0x80 + r % 64 - 0x80), 2) := by
        simp only [utf8DecodeStep, hok, if_neg hnot, if_true]
      rw [hs]
      have hv : (0xC0 + r / 64 - 0xC0) * 64 + (0x80 + r % 64 - 0x80) = r := by
        omega
      rw [sanitizeRune_eq_self r (by simp [validRune]; omega)]
      simp only [hv, List.drop_succ_cons, List.drop_zero]
    · by_cases h3 : r < 0x10000
      · by_cases hsur : 0xD800 ≤ r ∧ r ≤ 0xDFFF
        · have he : utf8EncodeChar r = [0xEF, 0xBF, 0xBD] := by
            simp only [utf8EncodeChar, if_neg h1, if_neg h2, if_pos h3]
            rw [if_pos]
            simp only [Bool.and_eq_true, decide_eq_true_eq]
            omega
          rw [he]
          simp only [List.cons_append, List.nil_append, utf8Decode_repl]
          rw [sanitizeRune_eq_repl r (by simp [validRune]; omega)]
        · have hsur' : (decide (0xD800 ≤ r) && decide (r ≤ 0xDFFF)) = false := by
            simp only [Bool.and_eq_false_iff, decide_eq_false_iff_not]
            omega
          have he : utf8EncodeChar r =
              [0xE0 + r / 4096, 0x80 + r / 64 % 64, 0x80 + r % 64] := by
            simp only [utf8EncodeChar, if_neg h1, if_neg h2, if_pos h3, hsur',
              Bool.false_eq_true, if_false]
          rw [he]
          simp only [List.cons_append, List.nil_append, utf8Decode_cons]
          have hnot : ¬ (0xE0 + r / 4096 < 0x80) := by omega
          have hok2 : utf8Ok2 (0xE0 + r / 4096) (0x80 + r / 64 % 64) = false := by
            simp only [utf8Ok2, isCont, Bool.and_eq_false_iff,
              decide_eq_false_iff_not]
            omega
          have hok3 : utf8Ok3 (0xE0 + r / 4096) (0x80 + r / 64 % 64)
              (0x80 + r % 64) = true := by
            simp only [utf8Ok3, isCont, Bool.and_eq_true, Bool.or_eq_true,
              decide_eq_true_eq]
            omega
          have hs : utf8DecodeStep ((0xE0 + r / 4096) :: (0x80 + r / 64 % 64) ::
              (0x80 + r % 64) :: t) =
              ((0xE0 + r / 4096 - 0xE0) * 4096 + (0x80 + r / 64 % 64 - 0x80) * 64 +
                (0x80 + r % 64 - 0x80), 3) := by
            simp only [utf8DecodeStep, if_neg hnot, hok2, hok3,
              Bool.false_eq_true, if_false, if_true]
          rw [hs]
          have hv : (0xE0 + r / 4096 - 0xE0) * 4096 +
              (0x80 + r / 64 % 64 - 0x80) * 64 + (0x80 + r % 64 - 0x80) = r := by
            omega
          rw [sanitizeRune_eq_self r (by simp [validRune]; omega)]
          simp only [hv, List.drop_succ_cons, List.drop_zero]
      · by_cases h4 : r < 0x110000
        · have he : utf8EncodeChar r = [0xF0 + r / 262144, 0x80 + r / 4096 % 64,
              0x80 + r / 64 % 64, 0x80 + r % 64] := by
            simp only [utf8EncodeChar, if_neg h1, if_neg h2, if_neg h3, if_pos h4]
          rw [he]
          simp only [List.cons_append, List.nil_append, utf8Decode_cons]
          have hnot : ¬ (0xF0 + r / 262144 < 0x80) := by omega
          have hok2 : utf8Ok2 (0xF0 + r / 262144) (0x80 + r / 4096 % 64) = false := by
            simp only [utf8Ok2, isCont, Bool.and_eq_false_iff,
              decide_eq_false_iff_not]
            omega
          have hok3 : utf8Ok3 (0xF0 + r / 262144) (0x80 + r / 4096 % 64)
              (0x80 + r / 64 % 64) = false := by
            simp only [utf8Ok3, isCont, Bool.and_eq_false_iff, Bool.or_eq_false_iff,
              Bool.and_eq_false_iff, decide_eq_false_iff_not]
            omega
          have hok4 : utf8Ok4 (0xF0 + r / 262144) (0x80 + r / 4096 % 64)
              (0x80 + r / 64 % 64) (0x80 + r % 64) = true := by
            simp only [utf8Ok4, isCont, Bool.and_eq_true, Bool.or_eq_true,
              decide_eq_true_eq]
            omega
          have hs : utf8DecodeStep ((0xF0 + r / 262144) :: (0x80 + r / 4096 % 64) ::
              (0x80 + r / 64 % 64) :: (0x80 + r % 64) :: t) =
              ((0xF0 + r / 262144 - 0xF0) * 262144 +
                (0x80 + r / 4096 % 64 - 0x80) * 4096 +
                (0x80 + r / 64 % 64 - 0x80) * 64 + (0x80 + r % 64 - 0x80), 4) := by
            simp only [utf8DecodeStep, if_neg hnot, hok2, hok3, hok4,
              Bool.false_eq_true, if_false, if_true]
          rw [hs]
          have hv : (0xF0 + r / 262144 - 0xF0) * 262144 +
              (0x80 + r / 4096 % 64 - 0x80) * 4096 +
              (0x80 + r / 64 % 64 - 0x80) * 64 + (0x80 + r % 64 - 0x80) = r := by
            omega
          rw [sanitizeRune_eq_self r (by simp [validRune]; omega)]
          simp only [hv, List.drop_succ_cons, List.drop_zero]
        · have he : utf8EncodeChar r = [0xEF, 0xBF, 0xBD] := by
            simp only [utf8EncodeChar, if_neg h1, if_neg h2, if_neg h3, if_neg h4]
          rw [he]
          simp only [List.cons_append, List.nil_append, utf8Decode_repl]
          rw [sanitizeRune_eq_repl r (by simp [validRune]; omega)]

theorem utf8_roundtrip (l : List Nat) :
    utf8Decode (utf8Encode l) = l.map sanitizeRune := by
  induction l with
  | nil => rfl
  | cons r t ih =>
    simp only [utf8Encode, List.map_cons, List.flatten_cons]
    rw [show (List.map utf8EncodeChar t).flatten = utf8Encode t from rfl,
      utf8_roundtrip_char, ih]

theorem utf8_roundtrip_valid (l : List Nat) (h : l.all validRune = true) :
    utf8Decode (utf8Encode l) = l := by
  rw [utf8_roundtrip]
  induction l with
  | nil => rfl
  | cons r t ih =>
    simp only [List.all_cons, Bool.and_eq_true] at h
    simp only [List.map_cons, sanitizeRune, h.1, if_true, List.cons.injEq,
      true_and]
    exact ih h.2

/-! ## The key stream (Go `Keys` struct)

The Go struct additionally holds two channels (`keysOnce`, `cursor`) and
a mutex used for cross-goroutine hand-off; the functional model below
covers the single-threaded data path, with the `waiting` and `reading`
flags kept as plain fields. -/

/-- State of the key-acquisition engine: `buf` is the pending byte FIFO
read from the device, `matched`/`matchedLen` the accumulator of keys
already matched against binds, `macroKeys` the rune FIFO fed by the macro
engine, and `mustWait` forces the next wait to read the device even
though `buf` is non-empty. -/
structure Keys where
  buf : List Nat
  matched : List Nat
  matchedLen : Nat
  macroKeys : List Nat
  mustWait : Bool
  waiting : Bool
  reading : Bool
  deriving DecidableEq, Repr

/-- The zero value of the `Keys` struct. -/
def initKeys : Keys :=
  { buf := []
    matched := []
    matchedLen := 0
    macroKeys := []
    mustWait := false
    waiting := false
    reading := false }

/-- Go `(k *Keys) Pop()`: remove and return the first byte of `buf`,
falling back to the first macro rune truncated to a byte; when both are
empty return the zero byte together with `empty = true`. A returned key
is also appended (as a rune) to the `matched` accumulator. -/
def Pop (k : Keys) : Nat × Bool × Keys :=
  match k.buf with
  | key :: rest =>
    (key, false,
      { k with
        buf := rest
        matched := k.matched ++ [key]
        matchedLen := k.matchedLen + 1 })
  | [] =>
    match k.macroKeys with
    | r :: rest =>
      (r % 256, false,
        { k with
          macroKeys := rest
          matched := k.matched ++ [r % 256]
          matchedLen := k.matchedLen + 1 })
    | [] => (0, true, k)

/-- Go `PeekKey(keys *Keys)`: like `Pop` but leaves the state untouched
and does not record the key as matched. -/
def PeekKey (k : Keys) : Nat × Bool :=
  match k.buf with
  | key :: _ => (key, false)
  | [] =>
    match k.macroKeys with
    | r :: _ => (r % 256, false)
    | [] => (0, true)

/-- Go `MatchedPrefix(keys *Keys, prefix ...byte)`: push a
prefix-matched byte run back to the front of `buf`, request a genuine
device wait when `buf` was empty at call time, and replace the matched
accumulator with the prefix (decoded to runes as Go's
`[]rune(string(prefix))` does). Empty input is a no-op. -/
def MatchedPrefix (k : Keys) (pfx : List Nat) : Keys :=
  if pfx = [] then k
  else
    { k with
      mustWait := k.buf = []
      buf := pfx ++ k.buf
      matched := utf8Decode pfx
      matchedLen := pfx.length }

/-- Go `FlushUsed(keys *Keys)`: the deferred block resets `matchedLen`
and `matched` on every path, so the whole function clears the matched
accumulator and touches nothing else. -/
def FlushUsed (k : Keys) : Keys :=
  { k with matched := [], matchedLen := 0 }

/-- Go `(k *Keys) Feed(begin bool, keys ...rune)`: append runes to the
macro queue, in front when `atFront` is set; the runes pass through a
`string` round trip (`[]rune(string(keys))`) first. Empty input is a
no-op. -/
def Feed (k : Keys) (atFront : Bool) (keys : List Nat) : Keys :=
  if keys = [] then k
  else
    let keyBuf := utf8Decode (utf8Encode keys)
    if atFront then { k with macroKeys := keyBuf ++ k.macroKeys }
    else { k with macroKeys := k.macroKeys ++ keyBuf }

/-! ## Cursor-position responses (Go regex `\x1b\[([0-9]+);([0-9]+)R`)

The regex is deterministic, so it is embedded as an explicit scanner:
`matchCursorAt` recognises a full response at the head of a byte list
(the `[0-9]+` groups are maximal digit runs, exactly as the regex
matches them), and `scanCursor` walks the list left to right collecting
all non-overlapping matches together with the unmatched remainder. -/

/-- ASCII digit test, the `[0-9]` character class. -/
def isDigit (b : Nat) : Bool := 48 ≤ b && b ≤ 57

/-- Decimal value of a digit run, as `strconv.Atoi` computes it. -/
def digitsVal (l : List Nat) : Nat := l.foldl (fun acc b => acc * 10 + (b - 48)) 0

/-- Recognise `ESC [ <digits> ; <digits> R` at the head of `l`; on
success return the matched bytes, the two group values (row, column) and
the remainder after the match. -/
def matchCursorAt (l : List Nat) : Option (List Nat × Nat × Nat × List Nat) :=
  match l with
  | 27 :: 91 :: r1 =>
    let d1 := r1.takeWhile isDigit
    let r2 := r1.dropWhile isDigit
    if d1 = [] then none
    else match r2 with
      | 59 :: r3 =>
        let d2 := r3.takeWhile isDigit
        let r4 := r3.dropWhile isDigit
        if d2 = [] then none
        else match r4 with
          | 82 :: r5 =>
            some (27 :: 91 :: (d1 ++ 59 :: d2 ++ [82]), digitsVal d1,
              digitsVal d2, r5)
          | _ => none
      | _ => none
  | _ => none

/-- Fuel-driven left-to-right scan; every step consumes at least one
byte, so fuel equal to the list length never runs out. Returns the list
of matches (match bytes, row, column) in order, and the input with all
matched spans removed (the regex `ReplaceAll` remainder). -/
def scanCursorAux : Nat → List Nat → List (List Nat × Nat × Nat) × List Nat
  | 0, l => ([], l)
  | _ + 1, [] => ([], [])
  | fuel + 1, b :: rest =>
    match matchCursorAt (b :: rest) with
    | some (m, y, x, r5) =>
      let p := scanCursorAux fuel r5
      ((m, y, x) :: p.1, p.2)
    | none =>
      let p := scanCursorAux fuel rest
      (p.1, b :: p.2)

/-- All cursor-response matches in a byte list plus the unmatched rest. -/
def scanCursor (l : List Nat) : List (List Nat × Nat × Nat) × List Nat :=
  scanCursorAux l.length l

/-- First match of the cursor-response regex: row and column group
values, as `FindAllStringSubmatch(s, 1)` produces them. -/
def findCursor (l : List Nat) : Option (Nat × Nat) :=
  match (scanCursor l).1 with
  | [] => none
  | m :: _ => some (m.2.1, m.2.2)

/-- Go `(k *Keys) extractCursorPos(keys)`: if no response is present the
input is returned unchanged with an empty cursor; otherwise the last
match is the cursor and the remainder has every match removed. -/
def extractCursorPos (keys : List Nat) : List Nat × List Nat :=
  let p := scanCursor keys
  match p.1.getLast? with
  | none => ([], keys)
  | some m => (m.1, p.2)

/-! ## `WaitAvailableKeys`

The device is modelled as a trace of read results: `none` is a read
that failed with `io.EOF` (sent when reading is paused), `some c` a
successful read returning the bytes `c`. Each successful read passes
through `extractCursorPos` (Go `readInputFiltered`), the extracted
cursor response being delivered on the `cursor` channel to a concurrent
`GetCursorPos`, outside this single-threaded model. The result is the
final state paired with the number of device reads performed, or `none`
when the trace is exhausted while the loop would still be blocked. -/

/-- The read loop of Go `WaitAvailableKeys`: EOF returns silently; an
empty filtered read retries; when a synchronous `ReadKey` is in flight
(`reading`) the bytes go to its one-shot channel and the loop retries;
otherwise the bytes are appended to `buf` and the wait ends. -/
def waitLoop : List (Option (List Nat)) → Keys → Option (Keys × Nat)
  | [], _ => none
  | none :: _, k => some (k, 1)
  | some c :: rest, k =>
    let keys := (extractCursorPos c).2
    if keys = [] then
      match waitLoop rest k with
      | none => none
      | some (k', n) => some (k', n + 1)
    else if k.reading then
      match waitLoop rest k with
      | none => none
      | some (k', n) => some (k', n + 1)
    else some ({ k with buf := k.buf ++ keys }, 1)

/-- Go `WaitAvailableKeys(keys *Keys)`: return at once when `buf` holds
keys and the must-wait flag is clear, or when the macro queue is
non-empty; otherwise enter the blocking read loop. The `Nat` component
counts device reads (0 exactly on the immediate paths). -/
def WaitAvailableKeys (chunks : List (Option (List Nat))) (k : Keys) :
    Option (Keys × Nat) :=
  if (¬ k.buf = [] ∧ k.mustWait = false) ∨ ¬ k.macroKeys = [] then some (k, 0)
  else waitLoop chunks k

/-! ## `GetCursorPos` -/

/-- Largest value `strconv.Atoi` accepts on a 64-bit platform. -/
def maxInt64 : Nat := 9223372036854775807

/-- The read loop of Go `GetCursorPos` in the direct-read case (no
concurrent wait or read in flight, so the `waiting`/`reading` channel
hand-off is not taken): a read error or an empty read degrades to
`(-1, -1)`; a chunk without a cursor response is appended to `buf` as
user input and the loop reads again; a chunk with a response parses its
first match as `(x, y)`, degrading when a group overflows `Atoi`. The
`Nat` component counts device reads. -/
def gcpLoop : List (Option (List Nat)) → Keys → Option ((Int × Int) × Keys × Nat)
  | [], _ => none
  | none :: _, k => some ((-1, -1), k, 1)
  | some c :: rest, k =>
    if c = [] then some ((-1, -1), k, 1)
    else match findCursor c with
      | none =>
        match gcpLoop rest { k with buf := k.buf ++ c } with
        | none => none
        | some (r, k', n) => some (r, k', n + 1)
      | some (y, x) =>
        if y ≤ maxInt64 then
          if x ≤ maxInt64 then some (((x : Int), (y : Int)), k, 1)
          else some ((-1, -1), k, 1)
        else some ((-1, -1), k, 1)

/-- Go `GetCursorPos` (direct-read case), returning the coordinates, the
updated key state and the number of device reads. -/
def GetCursorPos (chunks : List (Option (List Nat))) (k : Keys) :
    Option ((Int × Int) × Keys × Nat) :=
  gcpLoop chunks k

/-- A device-trace entry on which the `GetCursorPos` loop degrades to
`(-1, -1)`: a read error, an empty read, or a response whose row or
column overflows `Atoi`. -/
def failChunk (c : Option (List Nat)) : Bool :=
  match c with
  | none => true
  | some l =>
    if l = [] then true
    else match findCursor l with
      | none => false
      | some (y, x) => ¬ (y ≤ maxInt64 && x ≤ maxInt64)

/-- A device-trace entry the `GetCursorPos` loop consumes and keeps
reading past: non-empty bytes with no cursor response in them. -/
def passChunk (c : Option (List Nat)) : Bool :=
  match c with
  | none => false
  | some l => ¬ l = [] && (findCursor l).isNone

/-! ## The dispatcher (Go `Instance` / `Readline` loop)

Only the fields the modelled paths read or write are carried; display
state (helpers, hints, prompts) belongs to the external renderer and the
completion engine is an external collaborator, so calls such as
`clearHelpers`, `renderHelpers` or `refreshVimStatus` have no effect on
this state. -/

/-- The editing modes of the vi state machine (Go `modeViMode`). -/
inductive VimMode
  | vimInsert
  | vimKeys
  | vimDelete
  | vimReplaceOnce
  | vimReplaceMany
  deriving DecidableEq, Repr

/-- Dispatcher-side state: the edit line (runes) and cursor, the single
mode field, the multiline accumulation buffer (bytes) and its split
(rune lines), the skip-read flag, the tab-completion flag, and the
fields read by the interrupt handlers (`comp`, `keys`). -/
structure RL where
  line : List Nat
  pos : Nat
  modeViMode : VimMode
  multiline : List Nat
  multisplit : List (List Nat)
  skipStdinRead : Bool
  modeTabCompletion : Bool
  comp : List Nat
  keysStr : List Nat
  deriving DecidableEq, Repr

/-- The dispatcher state at the top of a fresh `Readline` call. -/
def initRL : RL :=
  { line := []
    pos := 0
    modeViMode := .vimInsert
    multiline := []
    multisplit := []
    skipStdinRead := false
    modeTabCompletion := false
    comp := []
    keysStr := [] }

/-- Go `isMultiline(r []rune)`: true when some carriage return or line
feed occurs at an index other than the last. -/
def isMultiline : List Nat → Bool
  | [] => false
  | [_] => false
  | c :: rest => (c == 13 || c == 10) || isMultiline rest

/-- Characters matched by the Go regex `rxMultiline = [\r\n]+`. -/
def isNL (c : Nat) : Bool := c == 13 || c == 10

/-- Fuel-driven splitter for `rxMultiline.Split(s, -1)`: each recursion
consumes the segment plus at least one newline, so fuel equal to the
input length never runs out. -/
def splitMLAux : Nat → List Nat → List (List Nat)
  | 0, l => [l]
  | fuel + 1, s =>
    let seg := s.takeWhile (fun c => ¬ isNL c)
    let rest := s.dropWhile (fun c => ¬ isNL c)
    match rest with
    | [] => [seg]
    | _ :: _ => seg :: splitMLAux fuel (rest.dropWhile isNL)

/-- Go `rxMultiline.Split(s, -1)`: split around maximal `[\r\n]+` runs. -/
def splitML (s : List Nat) : List (List Nat) := splitMLAux s.length s

/-- Go `(rl *Instance) allowMultiline(data []byte)`: prompt until a
decisive answer arrives. `data` is only printed (byte count and
preview). Each answer read is `none` for a device error (treated as a
rejection) or the bytes read; `y`/`Y` accepts, `n`/`N` rejects, anything
else — including `p`/`P` preview — prints and prompts again. The result
pairs the decision with the number of prompts printed; `none` means the
answer trace ran out while still prompting. -/
def allowMultiline (data : List Nat) (answers : List (Option (List Nat))) :
    Option (Bool × Nat) :=
  match answers with
  | [] => none
  | none :: _ => some (false, 1)
  | some s :: rest =>
    if s = [121] ∨ s = [89] then some (true, 1)
    else if s = [110] ∨ s = [78] then some (false, 1)
    else match allowMultiline data rest with
      | none => none
      | some (b, n) => some (b, n + 1)

/-- One editing operation observed on the buffer. -/
inductive EditEvent
  | deleted
  | inserted (r : List Nat)
  deriving DecidableEq, Repr

/-- Modelled from the spec: `rl.insert(runes)` is the EditBuffer
insertion primitive of §4.3 (`Insert(pos, runes...)`), whose Go source
is not among the provided files — it inserts the runes at the cursor and
advances the cursor past them. -/
def insertRunes (st : RL) (r : List Nat) : RL :=
  { st with
    line := st.line.take st.pos ++ r ++ st.line.drop st.pos
    pos := st.pos + r.length }

/-- Modelled from the spec: `rl.delete()` is the EditBuffer
`CutRune(pos)` primitive of §4.3, whose Go source is not among the
provided files — it removes the rune under the cursor. -/
def deleteRune (st : RL) : RL :=
  { st with line := st.line.take st.pos ++ st.line.drop (st.pos + 1) }

/-- One pass of the `vimReplaceMany` loop body of Go `editorInput`:
`rl.delete()` then `rl.insert([]rune{char})` for one supplied rune,
recording both operations. -/
def replaceStep (p : RL × List EditEvent) (c : Nat) : RL × List EditEvent :=
  (insertRunes (deleteRune p.1) [c], p.2 ++ [.deleted, .inserted [c]])

/-- Go `(rl *Instance) editorInput(r []rune)`: route on the single mode
field. The vi-command and vi-delete interpreters (`rl.vi`,
`rl.vimDelete`) and the syntax-completion hook are not among the
provided sources, so they are taken as parameters; `synComp` acts on
line and cursor only, matching its role as an external
line-transforming collaborator, and runs exactly when `multisplit` is
empty. The event list records the delete/insert operations issued by
the replace and insert branches. -/
def editorInput (vi : RL → Nat → RL) (vimDel : RL → List Nat → RL)
    (synComp : List Nat × Nat → List Nat × Nat) (st : RL) (r : List Nat) :
    RL × List EditEvent :=
  let base : RL × List EditEvent :=
    match st.modeViMode with
    | .vimKeys => (vi st (r.headD 0), [])
    | .vimDelete => (vimDel st r, [])
    | .vimReplaceOnce =>
      let st1 := { st with modeViMode := .vimKeys }
      (insertRunes (deleteRune st1) [r.headD 0],
        [.deleted, .inserted [r.headD 0]])
    | .vimReplaceMany => r.foldl replaceStep (st, [])
    | .vimInsert => (insertRunes st r, [.inserted r])
  if base.1.multisplit = [] then
    let lp := synComp (base.1.line, base.1.pos)
    ({ base.1 with line := lp.1, pos := lp.2 }, base.2)
  else base

/-- Go `(rl *Instance) carridgeReturn()`: clears helpers, prints the
line break and writes the accepted line to the external history store —
none of which touches the modelled fields. -/
def carridgeReturn (st : RL) : RL := st

/-- How one iteration of the `Readline` loop left the multiline path. -/
inductive MLOutcome
  | notMultiline
  | continueAccum
  | rejected
  | accepted (line : List Nat)
  | blocked
  deriving DecidableEq, Repr

/-- The multiline-accumulation branch of Go `Readline` (the body guarded
by `isMultiline(r[:i]) || len(rl.multiline) > 0`), for one chunk of
`i = chunk.length` bytes read into a `bufSize`-byte buffer. Go decodes
the whole read buffer (`r := []rune(string(b))`) — trailing zero bytes
included — and slices the first `i` runes for the guard, which the model
reproduces. A full buffer keeps accumulating; otherwise the user is
prompted once via `allowMultiline`, a rejection drops the accumulated
bytes without touching the line, and an acceptance splits the
accumulated bytes into lines, replays the first through `editorInput`
in insert mode and returns the line. The `Nat` component counts prompts
printed. -/
def readlineMultilineStep (vi : RL → Nat → RL) (vimDel : RL → List Nat → RL)
    (synComp : List Nat × Nat → List Nat × Nat) (bufSize : Nat) (st : RL)
    (chunk : List Nat) (answers : List (Option (List Nat))) :
    RL × MLOutcome × Nat :=
  let i := chunk.length
  let decodedFull := utf8Decode (chunk ++ List.replicate (bufSize - i) 0)
  let rI := decodedFull.take i
  if ¬ (isMultiline rI = true ∨ ¬ st.multiline = []) then (st, .notMultiline, 0)
  else
    let ml := st.multiline ++ chunk
    if i = bufSize then ({ st with multiline := ml }, .continueAccum, 0)
    else match allowMultiline ml answers with
      | none => ({ st with multiline := ml }, .blocked, answers.length)
      | some (false, n) => ({ st with multiline := [] }, .rejected, n)
      | some (true, n) =>
        let parts := splitML (utf8Decode ml)
        let st1 :=
          { st with
            multiline := ml
            multisplit := parts
            modeViMode := .vimInsert }
        let p := editorInput vi vimDel synComp st1 (parts.headD [])
        let st2 := carridgeReturn p.1
        let st3 := { st2 with multiline := [] }
        let st4 :=
          if parts.length > 1 then { st3 with multisplit := parts.drop 1 }
          else { st3 with multisplit := [] }
        (st4, .accepted st4.line, n)

/-! ## Interrupt keys -/

/-- The error component of a `Readline` return: `noErr` is Go's `nil`
(ordinary acceptance), `ctrlC` the exported `CtrlC`/`ErrCtrlC` value,
`eof` the end-of-file value. -/
inductive RlError
  | noErr
  | ctrlC
  | eof
  deriving DecidableEq, Repr

/-- What one arm of the `Readline` byte switch does to the loop: return
a value/error pair to the caller, or continue reading. -/
inductive Outcome
  | ret (val : List Nat) (err : RlError)
  | cont
  deriving DecidableEq, Repr

/-- Modelled from the spec: the key constants live in a file not among
the provided sources; `charCtrlC` and `charEOF` are the ASCII ETX and
EOT codes produced by Ctrl-C and Ctrl-D. -/
def charCtrlC : Nat := 3

/-- Modelled from the spec: see `charCtrlC`. -/
def charEOF : Nat := 4

/-- The return-level behaviour of the `switch b[0]` dispatch in Go
`Readline`: Ctrl-C returns the empty string with the `CtrlC` error, EOF
returns the `EOF` error, carriage return or line feed accepts the
current line with a `nil` error unless the tab-completion menu is open
(in which case the highlighted candidate is inserted and the loop
continues), and every other arm (search toggles, tab, backspace, escape
sequences, plain insertion) continues the loop. -/
def keySwitch (st : RL) (b0 : Nat) : Outcome :=
  if b0 = charCtrlC then .ret [] .ctrlC
  else if b0 = charEOF then .ret [] .eof
  else if b0 = 13 ∨ b0 = 10 then
    if st.modeTabCompletion then .cont
    else .ret st.line .noErr
  else .cont

/-- Go `(rl *Instance) errorCtrlC`: clear the unmatched key string; when
a virtual completion is inserted, cancel it (`resetVirtualComp`,
`resetTabCompletion` — modelled from the spec as clearing the completion
and the menu flag, their sources not being among the provided files) and
ask for another read; otherwise report the current line with the
`CtrlC` error and request a return. Result:
`(state, read, ret, val, err)`. -/
def errorCtrlC (st : RL) : RL × Bool × Bool × List Nat × RlError :=
  let st1 := { st with keysStr := [] }
  if ¬ st.comp = [] then
    ({ st1 with comp := [], modeTabCompletion := false }, true, false, [],
      .noErr)
  else
    (st1, false, true, st.line, .ctrlC)

/-! ## Claims -/

/-- C1: `Pop` and `PeekKey` prefer the pending buffer over the macro
queue — the key returned is the first pending byte whenever `buf` is
non-empty, the first macro-queue key (truncated to a byte) only when
`buf` is empty, and the zero key with the empty indicator set when both
are drained — and `Feed` with `begin = true` places the given keys at
the front of the macro queue, so a subsequent `Pop` on an empty pending
buffer consumes them before previously queued macro keys. -/
theorem C1_pop_peek_feed_priority (k : Keys) (ks : List Nat) :
    (¬ k.buf = [] →
      (Pop k).1 = k.buf.headD 0 ∧ (Pop k).2.1 = false ∧
      PeekKey k = (k.buf.headD 0, false)) ∧
    (k.buf = [] → ¬ k.macroKeys = [] →
      (Pop k).1 = k.macroKeys.headD 0 % 256 ∧ (Pop k).2.1 = false ∧
      PeekKey k = (k.macroKeys.headD 0 % 256, false)) ∧
    (k.buf = [] → k.macroKeys = [] →
      Pop k = (0, true, k) ∧ PeekKey k = (0, true)) ∧
    (ks.all validRune = true →
      (Feed k true ks).macroKeys = ks ++ k.macroKeys ∧
      (k.buf = [] → ∀ c cs, ks = c :: cs →
        (Pop (Feed k true ks)).1 = c % 256)) := by
  refine ⟨?_, ?_, ?_, ?_⟩
  · intro hb
    match hbuf : k.buf with
    | [] => exact absurd hbuf hb
    | key :: rest => simp [Pop, PeekKey, hbuf]
  · intro hb hm
    match hmac : k.macroKeys with
    | [] => exact absurd hmac hm
    | r :: rest => simp [Pop, PeekKey, hb, hmac]
  · intro hb hm
    simp [Pop, PeekKey, hb, hm]
  · intro hv
    have hfeed : (Feed k true ks).macroKeys = ks ++ k.macroKeys := by
      by_cases hks : ks = []
      · subst hks; simp [Feed]
      · simp only [Feed, hks, if_false, if_true, utf8_roundtrip_valid ks hv]
    refine ⟨hfeed, ?_⟩
    intro hb c cs hks
    have hbuf : (Feed k true ks).buf = [] := by
      by_cases hks' : ks = []
      · subst hks'; simp [Feed, hb]
      · simp [Feed, hks', hb]
    have hmac : (Feed k true ks).macroKeys = c :: (cs ++ k.macroKeys) := by
      rw [hfeed, hks]; rfl
    simp [Pop, hbuf, hmac]

/-- C1 witness: the theorem applied at concrete states — a pending byte
wins over a queued macro key, macro keys surface once the buffer is
empty, the drained state reports empty, and an at-front feed is popped
first. -/
theorem C1_witness :
    (Pop { initKeys with buf := [5], macroKeys := [7] }).1 = 5 ∧
    (Pop { initKeys with macroKeys := [7] }).1 = 7 ∧
    Pop initKeys = (0, true, initKeys) ∧
    (Feed { initKeys with macroKeys := [7] } true [97, 98]).macroKeys =
      [97, 98, 7] ∧
    (Pop (Feed { initKeys with macroKeys := [7] } true [97, 98])).1 = 97 := by
  refine ⟨?_, ?_, ?_, ?_, ?_⟩
  · exact ((C1_pop_peek_feed_priority { initKeys with buf := [5], macroKeys := [7] }
      []).1 (by decide)).1
  · have h := ((C1_pop_peek_feed_priority { initKeys with macroKeys := [7] }
      []).2.1 (by decide) (by decide)).1
    simpa using h
  · exact ((C1_pop_peek_feed_priority initKeys []).2.2.1 (by decide) (by decide)).1
  · have h := ((C1_pop_peek_feed_priority { initKeys with macroKeys := [7] }
      [97, 98]).2.2.2 (by decide)).1
    simpa using h
  · exact ((C1_pop_peek_feed_priority { initKeys with macroKeys := [7] }
      [97, 98]).2.2.2 (by decide)).2 (by decide) 97 [98] rfl

/-- C9: feeding an empty key list and prefix-matching zero bytes are
both complete no-ops — every field of the key-stream state is
unchanged. -/
theorem C9_empty_feed_and_prefix_noop (k : Keys) (atFront : Bool) :
    Feed k atFront [] = k ∧ MatchedPrefix k [] = k := by
  constructor
  · simp [Feed]
  · simp [MatchedPrefix]

/-- C3 counterexample: with an empty pending buffer, pushing the byte 27
back via `MatchedPrefix` and then calling `FlushUsed` leaves `buf` equal
to `[27]`, not the empty buffer it held before the prefix call — the
pair of calls does not restore `buf` to its pre-`MatchedPrefix` value. -/
theorem C3_counterexample :
    ¬ (FlushUsed (MatchedPrefix initKeys [27])).buf = initKeys.buf := by decide

/-- C3 (amended): `MatchedPrefix b` followed by `FlushUsed` with no
intervening `Pop` leaves the pending buffer equal to `b` prepended to
its value at the `MatchedPrefix` call — no bytes are lost and none are
duplicated — so when `b` was just popped off the front of the buffer,
the pair of calls restores the buffer to its pre-pop contents. -/
theorem C3_prefix_flush_restores (k : Keys) (b rest : List Nat)
    (h : k.buf = b ++ rest) :
    (FlushUsed (MatchedPrefix k b)).buf = b ++ k.buf ∧
    (FlushUsed (MatchedPrefix { k with buf := rest } b)).buf = k.buf := by
  constructor
  · by_cases hb : b = []
    · subst hb; simp [MatchedPrefix, FlushUsed]
    · simp [MatchedPrefix, FlushUsed, hb]
  · by_cases hb : b = []
    · subst hb; simp [MatchedPrefix, FlushUsed, h]
    · simp [MatchedPrefix, FlushUsed, hb, h]

/-- C3 witness: after popping the prefix `[27, 91]` off a buffer holding
`[27, 91, 99]`, the `MatchedPrefix`/`FlushUsed` pair restores exactly
`[27, 91, 99]`. -/
theorem C3_witness :
    (FlushUsed (MatchedPrefix { initKeys with buf := [99] } [27, 91])).buf =
      [27, 91, 99] := by
  have h := (C3_prefix_flush_restores { initKeys with buf := [27, 91, 99] }
    [27, 91] [99] (by decide)).2
  simpa using h

/-- Any completed pass through the `WaitAvailableKeys` read loop has
performed at least one device read. -/
theorem waitLoop_reads_pos (chunks : List (Option (List Nat))) (k k' : Keys)
    (n : Nat) (h : waitLoop chunks k = some (k', n)) : 1 ≤ n := by
  match chunks with
  | [] => simp [waitLoop] at h
  | none :: rest =>
    simp only [waitLoop, Option.some.injEq, Prod.mk.injEq] at h
    omega
  | some c :: rest =>
    simp only [waitLoop] at h
    by_cases hkeys : (extractCursorPos c).2 = []
    · rw [if_pos hkeys] at h
      cases hrec : waitLoop rest k with
      | none => rw [hrec] at h; exact absurd h (by simp)
      | some p =>
        rw [hrec] at h
        obtain ⟨k0, m⟩ := p
        simp only [Option.some.injEq, Prod.mk.injEq] at h
        omega
    · rw [if_neg hkeys] at h
      by_cases hr : k.reading = true
      · rw [if_pos hr] at h
        cases hrec : waitLoop rest k with
        | none => rw [hrec] at h; exact absurd h (by simp)
        | some p =>
          rw [hrec] at h
          obtain ⟨k0, m⟩ := p
          simp only [Option.some.injEq, Prod.mk.injEq] at h
          omega
      · rw [if_neg hr] at h
        simp only [Option.some.injEq, Prod.mk.injEq] at h
        omega

/-- C4: `WaitAvailableKeys` returns immediately — with no device read —
exactly when the pending buffer is non-empty and the must-wait flag is
clear, or the macro queue is non-empty; and after `MatchedPrefix` pushes
a non-empty prefix back onto an otherwise empty pending buffer the
must-wait flag is set, so that with no macro keys queued the next wait
performs a genuine device read instead of returning immediately. -/
theorem C4_wait_available (k : Keys) (chunks : List (Option (List Nat)))
    (b : List Nat) :
    ((¬ k.buf = [] ∧ k.mustWait = false) ∨ ¬ k.macroKeys = [] →
      WaitAvailableKeys chunks k = some (k, 0)) ∧
    (¬ ((¬ k.buf = [] ∧ k.mustWait = false) ∨ ¬ k.macroKeys = []) →
      ∀ k' n, WaitAvailableKeys chunks k = some (k', n) → 1 ≤ n) ∧
    (k.buf = [] → ¬ b = [] →
      (MatchedPrefix k b).mustWait = true ∧
      (k.macroKeys = [] →
        ∀ k' n, WaitAvailableKeys chunks (MatchedPrefix k b) = some (k', n) →
          1 ≤ n)) := by
  refine ⟨?_, ?_, ?_⟩
  · intro hcond
    unfold WaitAvailableKeys
    rw [if_pos hcond]
  · intro hcond k' n h
    unfold WaitAvailableKeys at h
    rw [if_neg hcond] at h
    exact waitLoop_reads_pos chunks k k' n h
  · intro hb hbne
    have hmw : (MatchedPrefix k b).mustWait = true := by
      simp [MatchedPrefix, hbne, hb]
    refine ⟨hmw, ?_⟩
    intro hmac k' n h
    have hm2 : (MatchedPrefix k b).macroKeys = k.macroKeys := by
      simp [MatchedPrefix, hbne]
    have hcond : ¬ ((¬ (MatchedPrefix k b).buf = [] ∧
        (MatchedPrefix k b).mustWait = false) ∨
        ¬ (MatchedPrefix k b).macroKeys = []) := by
      rw [hmw, hm2, hmac]
      simp
    unfold WaitAvailableKeys at h
    rw [if_neg hcond] at h
    exact waitLoop_reads_pos chunks (MatchedPrefix k b) k' n h

/-- C4 witness: a buffered key returns at once with zero reads; pushing
the byte 27 back onto an empty buffer sets must-wait, and the following
wait on a one-chunk device trace completes only after one real read. -/
theorem C4_witness :
    WaitAvailableKeys [some [97]] { initKeys with buf := [5] } =
      some ({ initKeys with buf := [5] }, 0) ∧
    (MatchedPrefix initKeys [27]).mustWait = true ∧
    1 ≤ (1 : Nat) := by
  refine ⟨?_, ?_, ?_⟩
  · exact (C4_wait_available { initKeys with buf := [5] } [some [97]] [27]).1
      (by decide)
  · exact ((C4_wait_available initKeys [some [97]] [27]).2.2 (by decide)
      (by decide)).1
  · exact ((C4_wait_available initKeys [some [97]] [27]).2.2 (by decide)
      (by decide)).2 (by decide)
      { initKeys with
        buf := [27, 97]
        matched := [27]
        matchedLen := 1
        mustWait := true } 1 (by decide)

/-- The byte literal `"\x1b[24;10R"`. -/
def cursorChunk : List Nat := [27, 91, 50, 52, 59, 49, 48, 82]

/-- The byte literal `"ab\x1b[24;10Rcd"`. -/
def mixedChunk : List Nat := [97, 98, 27, 91, 50, 52, 59, 49, 48, 82, 99, 100]

/-- C2: `GetCursorPos` fed one read of `"\x1b[24;10R"` returns
`(10, 24)`; fed one read of `"ab\x1b[24;10Rcd"` it also returns
`(10, 24)` but leaves the key state untouched — the bytes `"ab"` and
`"cd"` sharing the chunk with the response are dropped, not appended to
`pending`, so a subsequent `Pop` reports an empty stack instead of
returning `'a'`. The filtered reader path (`extractCursorPos`), by
contrast, does separate the response from the user bytes `"abcd"`. -/
theorem C2_cursor_parse_and_loss :
    GetCursorPos [some cursorChunk] initKeys = some ((10, 24), initKeys, 1) ∧
    GetCursorPos [some mixedChunk] initKeys = some ((10, 24), initKeys, 1) ∧
    Pop initKeys = (0, true, initKeys) ∧
    extractCursorPos mixedChunk = (cursorChunk, [97, 98, 99, 100]) := by
  decide

/-- The byte literal `"\x1b[9223372036854775808;1R"`, whose row group
overflows a 64-bit `Atoi`. -/
def overflowChunk : List Nat :=
  [27, 91, 57, 50, 50, 51, 51, 55, 50, 48, 51, 54, 56, 53, 52, 55, 55, 53, 56,
   48, 56, 59, 49, 82]

/-- C7 counterexample: a successful, non-empty device read — no read
error and no empty read — still makes `GetCursorPos` return `(-1, -1)`,
because the row number in the response overflows `Atoi`; so `(-1, -1)`
is not returned exactly when a read error or empty read occurs. -/
theorem C7_counterexample :
    GetCursorPos [some overflowChunk] initKeys =
      some ((-1, -1), initKeys, 1) ∧
    ¬ overflowChunk = [] := by
  decide

/-- C7 (amended): a completed `GetCursorPos` call performs at least one
read, and returns the degraded result `(-1, -1)` exactly when the read
it stopped at was a device error, an empty read, or a response whose row
or column overflows `Atoi`; every earlier read was ordinary user input
(non-empty, no response) that the loop consumed and kept reading past —
in particular the call stops at the first decisive read and never
retries after a failure. -/
theorem C7_degraded_result :
    ∀ (chunks : List (Option (List Nat))) (k : Keys) (r : Int × Int)
      (k' : Keys) (n : Nat),
    GetCursorPos chunks k = some (r, k', n) →
    1 ≤ n ∧ ∃ c, chunks.get? (n - 1) = some c ∧
      (r = (-1, -1) ↔ failChunk c = true) ∧
      ∀ j, j < n - 1 → ∀ cj, chunks.get? j = some cj → passChunk cj = true := by
  intro chunks
  induction chunks with
  | nil =>
    intro k r k' n h
    simp [GetCursorPos, gcpLoop] at h
  | cons c0 rest ih =>
    intro k r k' n h
    match c0 with
    | none =>
      simp only [GetCursorPos, gcpLoop, Option.some.injEq, Prod.mk.injEq] at h
      obtain ⟨h1, h2, h3⟩ := h
      subst h1; subst h3
      refine ⟨by omega, none, by simp, by simp [failChunk], ?_⟩
      intro j hj
      omega
    | some c =>
      simp only [GetCursorPos, gcpLoop] at h
      by_cases hce : c = []
      · rw [if_pos hce] at h
        simp only [Option.some.injEq, Prod.mk.injEq] at h
        obtain ⟨h1, h2, h3⟩ := h
        subst h1; subst h3
        refine ⟨by omega, some c, by simp, by simp [failChunk, hce], ?_⟩
        intro j hj
        omega
      · rw [if_neg hce] at h
        cases hfc : findCursor c with
        | none =>
          simp only [hfc] at h
          cases hrec : gcpLoop rest { k with buf := k.buf ++ c } with
          | none => rw [hrec] at h; exact absurd h (by simp)
          | some p =>
            obtain ⟨r0, k0, m⟩ := p
            rw [hrec] at h
            simp only [Option.some.injEq, Prod.mk.injEq] at h
            obtain ⟨h1, h2, h3⟩ := h
            subst h1; subst h3
            obtain ⟨hm1, c', hc', hiff, hpass⟩ := ih _ _ _ _ hrec
            refine ⟨by omega, c', ?_, hiff, ?_⟩
            · have : m + 1 - 1 = (m - 1) + 1 := by omega
              rw [this, List.get?_cons_succ]
              exact hc'
            · intro j hj cj hcj
              match j with
              | 0 =>
                rw [List.get?_cons_zero] at hcj
                cases hcj
                simp [passChunk, hce, hfc]
              | j' + 1 =>
                rw [List.get?_cons_succ] at hcj
                exact hpass j' (by omega) cj hcj
        | some yx =>
          obtain ⟨y, x⟩ := yx
          simp only [hfc] at h
          by_cases hy : y ≤ maxInt64
          · rw [if_pos hy] at h
            by_cases hx : x ≤ maxInt64
            · rw [if_pos hx] at h
              simp only [Option.some.injEq, Prod.mk.injEq] at h
              obtain ⟨h1, h2, h3⟩ := h
              subst h1; subst h3
              refine ⟨by omega, some c, by simp, ?_, ?_⟩
              · rw [show failChunk (some c) = false from by
                  simp [failChunk, hce, hfc, hy, hx]]
                simp only [Bool.false_eq_true, iff_false]
                intro hcontra
                rw [Prod.mk.injEq] at hcontra
                have := hcontra.1
                omega
              · intro j hj
                omega
            · rw [if_neg hx] at h
              simp only [Option.some.injEq, Prod.mk.injEq] at h
              obtain ⟨h1, h2, h3⟩ := h
              subst h1; subst h3
              refine ⟨by omega, some c, by simp, ?_, ?_⟩
              · rw [show failChunk (some c) = true from by
                  simp [failChunk, hce, hfc, hx]]
                simp
              · intro j hj
                omega
          · rw [if_neg hy] at h
            simp only [Option.some.injEq, Prod.mk.injEq] at h
            obtain ⟨h1, h2, h3⟩ := h
            subst h1; subst h3
            refine ⟨by omega, some c, by simp, ?_, ?_⟩
            · rw [show failChunk (some c) = true from by
                simp [failChunk, hce, hfc, hy]]
              simp
            · intro j hj
              omega

/-- C7 witness: an empty first read degrades the call to `(-1, -1)`
after exactly one read, and that read is indeed a failing one. -/
theorem C7_witness :
    1 ≤ (1 : Nat) ∧ failChunk (some ([] : List Nat)) = true := by
  have h := C7_degraded_result [some []] initKeys (-1, -1) initKeys 1 (by decide)
  obtain ⟨h1, c, hc, hiff, _⟩ := h
  refine ⟨h1, ?_⟩
  have hc' : c = some ([] : List Nat) := by
    simpa using hc.symm
  rw [← hc']
  exact hiff.mp rfl

/-- The byte literal `"line1\nline2"` — an embedded line break not at
the end of the chunk. -/
def pasteChunk : List Nat := [108, 105, 110, 101, 49, 10, 108, 105, 110, 101, 50]

set_option maxRecDepth 100000 in
/-- C5: pasting `"line1\nline2"` as one short read enters the multiline
branch and issues exactly one accept/reject/preview prompt before any
text is inserted; answering `n` leaves the line empty (zero characters
inserted) with the accumulation buffer dropped, answering `y` inserts
only the first line and returns it; and in general a rejected prompt
never changes the line and always clears the accumulation buffer —
whatever the vi interpreters and syntax-completion hook do. -/
theorem C5_multiline_confirmation (vi : RL → Nat → RL)
    (vimDel : RL → List Nat → RL) (synComp : List Nat × Nat → List Nat × Nat) :
    readlineMultilineStep vi vimDel synComp 1024 initRL pasteChunk
      [some [110]] = (initRL, .rejected, 1) ∧
    readlineMultilineStep vi vimDel synComp 1024 initRL pasteChunk
      [some [121]] =
      ({ initRL with
          line := [108, 105, 110, 101, 49]
          pos := 5
          multisplit := [[108, 105, 110, 101, 50]] },
       .accepted [108, 105, 110, 101, 49], 1) ∧
    (∀ st chunk answers st' n,
      readlineMultilineStep vi vimDel synComp 1024 st chunk answers =
        (st', .rejected, n) → st'.line = st.line ∧ st'.multiline = []) := by
  refine ⟨rfl, rfl, ?_⟩
  intro st chunk answers st' n h
  simp only [readlineMultilineStep] at h
  split at h
  · simp only [Prod.mk.injEq] at h
    exact absurd h.2.1 (by simp)
  · split at h
    · simp only [Prod.mk.injEq] at h
      exact absurd h.2.1 (by simp)
    · split at h
      · simp only [Prod.mk.injEq] at h
        exact absurd h.2.1 (by simp)
      · simp only [Prod.mk.injEq] at h
        obtain ⟨hst, _, _⟩ := h
        rw [← hst]
        constructor <;> simp
      · simp only [Prod.mk.injEq] at h
        exact absurd h.2.1 (by simp)

set_option maxRecDepth 100000 in
/-- C5 witness: the rejection frame property applied to the concrete
paste of `"line1\nline2"` answered with `n`. -/
theorem C5_witness : initRL.line = initRL.line ∧ initRL.multiline = [] := by
  exact (C5_multiline_confirmation (fun s _ => s) (fun s _ => s)
    (fun p => p)).2.2 initRL pasteChunk [some [110]] initRL 1 (by decide)

/-- The replace-many loop emits a delete-then-insert event pair for
every supplied rune, in order. -/
theorem replaceStep_fold_events (r : List Nat) : ∀ (st : RL)
    (acc : List EditEvent),
    (r.foldl replaceStep (st, acc)).2 =
      acc ++ (r.map fun ch => [EditEvent.deleted, EditEvent.inserted [ch]]).flatten := by
  induction r with
  | nil => intro st acc; simp
  | cons c cs ih =>
    intro st acc
    simp only [List.foldl_cons, List.map_cons, List.flatten_cons, replaceStep]
    rw [ih]
    simp

/-- The replace-many loop touches only the line and the cursor: the
mode and the multiline split survive it. -/
theorem replaceStep_fold_frame (r : List Nat) : ∀ (st : RL)
    (acc : List EditEvent),
    (r.foldl replaceStep (st, acc)).1.modeViMode = st.modeViMode ∧
    (r.foldl replaceStep (st, acc)).1.multisplit = st.multisplit := by
  induction r with
  | nil => intro st acc; exact ⟨rfl, rfl⟩
  | cons c cs ih =>
    intro st acc
    simp only [List.foldl_cons, replaceStep]
    have h := ih (insertRunes (deleteRune st) [c]) (acc ++ [.deleted, .inserted [c]])
    refine ⟨?_, ?_⟩
    · rw [h.1]; simp [insertRunes, deleteRune]
    · rw [h.2]; simp [insertRunes, deleteRune]

/-- C8: `editorInput` routes on the single mode field — in replace-once
mode it deletes exactly one rune, inserts exactly one (the first of the
supplied input) and transitions back to vi-command (`vimKeys`); in
replace-many mode it issues a delete-then-insert pair for every
supplied rune and stays in replace-many; in insert mode it emits one
plain insertion of the whole input and, when the syntax-completion hook
is skipped (`multisplit` non-empty), the line is exactly the input
spliced in at the cursor. -/
theorem C8_editor_input_routing (vi : RL → Nat → RL)
    (vimDel : RL → List Nat → RL) (synComp : List Nat × Nat → List Nat × Nat)
    (st : RL) (r : List Nat) (c : Nat) (rest : List Nat) (h : r = c :: rest) :
    (st.modeViMode = .vimReplaceOnce →
      (editorInput vi vimDel synComp st r).2 = [.deleted, .inserted [c]] ∧
      (editorInput vi vimDel synComp st r).1.modeViMode = .vimKeys) ∧
    (st.modeViMode = .vimReplaceMany →
      (editorInput vi vimDel synComp st r).2 =
        (r.map fun ch => [EditEvent.deleted, EditEvent.inserted [ch]]).flatten ∧
      (editorInput vi vimDel synComp st r).1.modeViMode = .vimReplaceMany) ∧
    (st.modeViMode = .vimInsert →
      (editorInput vi vimDel synComp st r).2 = [.inserted r] ∧
      (editorInput vi vimDel synComp st r).1.modeViMode = .vimInsert ∧
      (¬ st.multisplit = [] →
        (editorInput vi vimDel synComp st r).1.line =
          st.line.take st.pos ++ r ++ st.line.drop st.pos ∧
        (editorInput vi vimDel synComp st r).1.pos = st.pos + r.length)) := by
  refine ⟨?_, ?_, ?_⟩
  · intro hmode
    simp only [editorInput, hmode, h, List.headD_cons]
    split
    · exact ⟨rfl, by simp [insertRunes, deleteRune]⟩
    · exact ⟨rfl, by simp [insertRunes, deleteRune]⟩
  · intro hmode
    simp only [editorInput, hmode]
    have hev := replaceStep_fold_events r st []
    have hfr := replaceStep_fold_frame r st []
    simp only [List.nil_append] at hev
    split
    · exact ⟨hev, by rw [hfr.1, hmode]⟩
    · exact ⟨hev, by rw [hfr.1, hmode]⟩
  · intro hmode
    simp only [editorInput, hmode]
    have hms : (insertRunes st r).multisplit = st.multisplit := by
      simp [insertRunes]
    by_cases hsp : st.multisplit = []
    · rw [if_pos (by rw [hms]; exact hsp)]
      refine ⟨rfl, by simp [insertRunes, hmode], ?_⟩
      intro hcontra
      exact absurd hsp hcontra
    · rw [if_neg (by rw [hms]; exact hsp)]
      refine ⟨rfl, by simp [insertRunes, hmode], ?_⟩
      intro _
      exact ⟨by simp [insertRunes], by simp [insertRunes]⟩

/-- C8 witness: the routing applied at concrete states — a replace-once
on line `"ab"` with input `'x'`, a replace-many with input `"xy"`, and a
plain insertion. -/
theorem C8_witness :
    (editorInput (fun s _ => s) (fun s _ => s) (fun p => p)
      { initRL with modeViMode := .vimReplaceOnce, line := [97, 98], multisplit := [[99]] }
      [120]).2 = [.deleted, .inserted [120]] ∧
    (editorInput (fun s _ => s) (fun s _ => s) (fun p => p)
      { initRL with modeViMode := .vimReplaceOnce, line := [97, 98], multisplit := [[99]] }
      [120]).1.modeViMode = .vimKeys ∧
    (editorInput (fun s _ => s) (fun s _ => s) (fun p => p)
      { initRL with modeViMode := .vimReplaceMany, multisplit := [[99]] }
      [120, 121]).2 = [.deleted, .inserted [120], .deleted, .inserted [121]] ∧
    (editorInput (fun s _ => s) (fun s _ => s) (fun p => p)
      { initRL with line := [97, 98], multisplit := [[99]] }
      [120]).1.line = [120, 97, 98] := by
  refine ⟨?_, ?_, ?_, ?_⟩
  · exact ((C8_editor_input_routing (fun s _ => s) (fun s _ => s) (fun p => p)
      { initRL with modeViMode := .vimReplaceOnce, line := [97, 98], multisplit := [[99]] }
      [120] 120 [] rfl).1 rfl).1
  · exact ((C8_editor_input_routing (fun s _ => s) (fun s _ => s) (fun p => p)
      { initRL with modeViMode := .vimReplaceOnce, line := [97, 98], multisplit := [[99]] }
      [120] 120 [] rfl).1 rfl).2
  · have h := ((C8_editor_input_routing (fun s _ => s) (fun s _ => s) (fun p => p)
      { initRL with modeViMode := .vimReplaceMany, multisplit := [[99]] }
      [120, 121] 120 [121] rfl).2.1 rfl).1
    simpa using h
  · have h := (((C8_editor_input_routing (fun s _ => s) (fun s _ => s) (fun p => p)
      { initRL with line := [97, 98], multisplit := [[99]] }
      [120] 120 [] rfl).2.2 rfl).2.2 (by simp)).1
    simpa using h

/-- C6: the Ctrl-C arm of the `Readline` byte switch returns the empty
line with the `CtrlC` error whatever the editing mode and the rest of
the state, that result is distinct from every ordinary acceptance
(which carries a `nil` error), and the `errorCtrlC` interrupt handler —
whenever no completion is pending — likewise requests a return carrying
the current line and the `CtrlC` error. -/
theorem C6_interrupt_distinct (st st2 : RL) (h : st2.comp = []) :
    keySwitch st charCtrlC = .ret [] .ctrlC ∧
    (∀ l : List Nat, ¬ Outcome.ret l RlError.noErr = Outcome.ret [] RlError.ctrlC) ∧
    ((errorCtrlC st2).2.2.1 = true ∧
      (errorCtrlC st2).2.2.2.1 = st2.line ∧
      (errorCtrlC st2).2.2.2.2 = RlError.ctrlC) := by
  refine ⟨?_, ?_, ?_⟩
  · simp [keySwitch, charCtrlC]
  · intro l hcontra
    simp at hcontra
  · simp [errorCtrlC, h]

/-- C6 witness: the Ctrl-C byte interrupts identically from vi-command
mode, and the handler reports the `CtrlC` error on the initial state. -/
theorem C6_witness :
    keySwitch { initRL with modeViMode := .vimKeys } charCtrlC =
      .ret [] .ctrlC ∧
    (errorCtrlC initRL).2.2.2.2 = RlError.ctrlC := by
  exact ⟨(C6_interrupt_distinct { initRL with modeViMode := .vimKeys } initRL
      rfl).1,
    (C6_interrupt_distinct initRL initRL rfl).2.2.2.2⟩

/-- C10: the multiline confirmation prompt returns `true` only when the
answer read is exactly `y` or `Y`, returns `false` only when the answer
is exactly `n` or `N` or the read failed (a device error is a
rejection), and every other answer — `p`/`P` preview included — prints
and prompts again without returning. -/
theorem C10_allow_multiline_answers (data : List Nat)
    (answers : List (Option (List Nat))) :
    (∀ rest, allowMultiline data (Option.none :: rest) = some (false, 1)) ∧
    (∀ b n, allowMultiline data answers = some (b, n) →
      1 ≤ n ∧ ∃ a, answers.get? (n - 1) = some a ∧
        (b = true ↔ (a = some [121] ∨ a = some [89])) ∧
        (b = false ↔ (a = Option.none ∨ a = some [110] ∨ a = some [78]))) ∧
    (∀ s rest, ¬ (s = [121] ∨ s = [89]) → ¬ (s = [110] ∨ s = [78]) →
      allowMultiline data (some s :: rest) =
        Option.map (fun p => (p.1, p.2 + 1)) (allowMultiline data rest)) := by
  refine ⟨?_, ?_, ?_⟩
  · intro rest
    simp [allowMultiline]
  · induction answers with
    | nil =>
      intro b n h
      simp [allowMultiline] at h
    | cons a rest ih =>
      intro b n h
      match a with
      | Option.none =>
        simp only [allowMultiline, Option.some.injEq, Prod.mk.injEq] at h
        obtain ⟨hb, hn⟩ := h
        subst hb; subst hn
        exact ⟨by omega, Option.none, by simp, by simp, by simp⟩
      | some s =>
        simp only [allowMultiline] at h
        by_cases hy : s = [121] ∨ s = [89]
        · rw [if_pos hy] at h
          simp only [Option.some.injEq, Prod.mk.injEq] at h
          obtain ⟨hb, hn⟩ := h
          subst hb; subst hn
          refine ⟨by omega, some s, by simp, ?_, ?_⟩
          · simp only [true_iff]
            rcases hy with h1 | h1
            · left; rw [h1]
            · right; rw [h1]
          · constructor
            · intro hcontra
              simp at hcontra
            · intro hcontra
              rcases hy with h1 | h1 <;> subst h1 <;> simp at hcontra
        · rw [if_neg hy] at h
          by_cases hn' : s = [110] ∨ s = [78]
          · rw [if_pos hn'] at h
            simp only [Option.some.injEq, Prod.mk.injEq] at h
            obtain ⟨hb, hn⟩ := h
            subst hb; subst hn
            refine ⟨by omega, some s, by simp, ?_, ?_⟩
            · constructor
              · intro hcontra
                simp at hcontra
              · intro hcontra
                rcases hn' with h1 | h1 <;> subst h1 <;>
                  rcases hcontra with h2 | h2 | h2 <;> simp_all
            · simp only [true_iff]
              rcases hn' with h1 | h1
              · right; left; rw [h1]
              · right; right; rw [h1]
          · rw [if_neg hn'] at h
            cases hrec : allowMultiline data rest with
            | none =>
              rw [hrec] at h
              simp at h
            | some p =>
              obtain ⟨b0, m⟩ := p
              rw [hrec] at h
              simp only [Option.some.injEq, Prod.mk.injEq] at h
              obtain ⟨hb, hn2⟩ := h
              subst hb; subst hn2
              obtain ⟨hm1, a', ha', hiff1, hiff2⟩ := ih b0 m hrec
              refine ⟨by omega, a', ?_, hiff1, hiff2⟩
              have heq : m + 1 - 1 = (m - 1) + 1 := by omega
              rw [heq, List.get?_cons_succ]
              exact ha'
  · intro s rest h1 h2
    simp only [allowMultiline, if_neg h1, if_neg h2]
    cases hrec : allowMultiline data rest with
    | none => simp
    | some p =>
      obtain ⟨b0, m⟩ := p
      simp

/-- C10 witness: a failed read rejects after one prompt; a `p` preview
answer re-prompts and the following `y` accepts at the second prompt. -/
theorem C10_witness :
    allowMultiline [] [Option.none] = some (false, 1) ∧
    1 ≤ (2 : Nat) ∧
    allowMultiline [] [some [112], some [121]] =
      Option.map (fun p => (p.1, p.2 + 1)) (allowMultiline [] [some [121]]) := by
  refine ⟨?_, ?_, ?_⟩
  · exact (C10_allow_multiline_answers [] []).1 []
  · exact ((C10_allow_multiline_answers [] [some [112], some [121]]).2.1 true 2
      (by decide)).1
  · exact (C10_allow_multiline_answers [] [some [121]]).2.2 [112] [some [121]]
      (by decide) (by decide)
